import Mathlib

/-!
Verification of the transform-embed-upsert pipeline (`src/embed.py`).

The Python source is shallowly embedded: dictionaries become structures,
`None`-able fields become `Option`, Python floats become `ℚ`, the external
embedding provider and the database write path become explicit parameters
(an oracle function and a failure predicate), and exceptions become
`Except`.  Field and function names follow the source.
-/

set_option maxHeartbeats 1000000

namespace EmbedPipeline

/-- `POSTER_BASE_URL` constant from embed.py line 30. -/
def POSTER_BASE_URL : String := "https://image.tmdb.org/t/p/w500"

/-- A row of `tmdb_data.raw_movies` as fetched by `fetch_raw_movies`
(embed.py lines 33-43): the six selected columns, all but `id` nullable. -/
structure RawMovie where
  id : Int
  title : Option String
  overview : Option String
  poster_path : Option String
  release_date : Option String
  vote_average : Option ℚ
deriving DecidableEq

/-- The transformed dictionary built inside `transform_and_embed_batch`
(embed.py lines 70-77), before the embedding is attached. -/
structure TransformedMovie where
  id : Int
  title : String
  overview : String
  release_year : Option Nat
  rating : ℚ
  poster_url : Option String
deriving DecidableEq

/-- A transformed movie once `movie['embedding'] = embeddings[i]` has run
(embed.py lines 88-89); exactly the seven columns the upsert writes. -/
structure MovieWithEmbedding where
  movie : TransformedMovie
  embedding : List ℚ
deriving DecidableEq

/-- The error values that can surface out of the modelled pipeline:
a failed provider call, an out-of-range list index when attaching
embeddings, and a database write failure. -/
inductive PyError where
  | embeddingProviderError
  | indexError
  | dbWriteError
deriving DecidableEq

/-! ### Date parsing: `datetime.strptime(s, '%Y-%m-%d').year`

CPython's `_strptime` compiles the format to the regex
`(?P<Y>\d\d\d\d)-(?P<m>1[0-2]|0[1-9]|[1-9])-(?P<d>3[01]|[1-2]\d|0[1-9]|[1-9])`,
requires the whole string to be consumed, converts the groups with `int`,
and then `datetime(year, month, day)` validates the calendar date
(year ≥ 1, day ≤ days in month).  Because each numeric group is followed
by a non-digit (a dash or the end of the string), the regex match takes a
maximal run of digits at each position whose length must be 4 for the
year and 1 or 2 for month and day; digits are ASCII here. -/

/-- ASCII decimal digit test (`\d` restricted to ASCII). -/
def isDig (c : Char) : Bool :=
  c = '0' || c = '1' || c = '2' || c = '3' || c = '4' ||
  c = '5' || c = '6' || c = '7' || c = '8' || c = '9'

/-- Numeric value of an ASCII digit character. -/
def digVal (c : Char) : Nat := c.toNat - 48

/-- `int` on a run of digit characters. -/
def digitsToNat (ds : List Char) : Nat :=
  ds.foldl (fun a c => a * 10 + digVal c) 0

/-- Split off the maximal leading run of ASCII digits. -/
def takeDigits : List Char → List Char × List Char
  | [] => ([], [])
  | c :: cs =>
    if isDig c then
      let p := takeDigits cs
      (c :: p.1, p.2)
    else ([], c :: cs)

/-- Leap-year rule used by `datetime` (proleptic Gregorian). -/
def isLeap (y : Nat) : Bool :=
  (y % 4 = 0 && y % 100 ≠ 0) || y % 400 = 0

/-- Number of days of month `m` of year `y`, as `datetime` validates it. -/
def daysInMonth (y m : Nat) : Nat :=
  if m = 2 then (if isLeap y then 29 else 28)
  else if m = 4 || m = 6 || m = 9 || m = 11 then 30
  else 31

/-- `datetime.strptime(s, '%Y-%m-%d')`: returns the `(year, month, day)`
of a successful parse, `none` when `strptime` or the `datetime`
constructor raises `ValueError`.  The year group is exactly 4 digits; the
month and day groups are 1 or 2 digits; the values must form a valid
calendar date with year ≥ 1. -/
def parseDateYMD (s : String) : Option (Nat × Nat × Nat) :=
  let p1 := takeDigits s.toList
  match p1.2 with
  | '-' :: r2 =>
    let p2 := takeDigits r2
    match p2.2 with
    | '-' :: r4 =>
      let p3 := takeDigits r4
      if p3.2 = [] ∧ p1.1.length = 4 ∧
          (p2.1.length = 1 ∨ p2.1.length = 2) ∧
          (p3.1.length = 1 ∨ p3.1.length = 2) then
        let y := digitsToNat p1.1
        let m := digitsToNat p2.1
        let d := digitsToNat p3.1
        if 1 ≤ y ∧ 1 ≤ m ∧ m ≤ 12 ∧ 1 ≤ d ∧ d ≤ daysInMonth y m then
          some (y, m, d)
        else none
      else none
    | _ => none
  | _ => none

/-! ### Rounding: Python's `round(x, 1)`

Python `round` rounds to the nearest representable value, ties to even.
Floats are modelled by `ℚ`, so the rounding is exact round-half-to-even
on the scaled value. -/

/-- Round a rational to the nearest integer, ties to the even integer. -/
def roundHalfEven (q : ℚ) : Int :=
  let f : Int := ⌊q⌋
  let frac : ℚ := q - f
  if frac < 1/2 then f
  else if 1/2 < frac then f + 1
  else if f % 2 = 0 then f else f + 1

/-- `round(q, 1)`: round to one decimal place, ties to even. -/
def round1 (q : ℚ) : ℚ := (roundHalfEven (10 * q) : ℚ) / 10

/-! ### Normalization (`transform_and_embed_batch`, embed.py lines 51-77) -/

/-- `movie['title'] or ""` (line 53): Python `or` yields the right operand
on a falsy (absent or empty) left operand. -/
def pyTitle (m : RawMovie) : String :=
  match m.title with
  | some s => if s = "" then "" else s
  | none => ""

/-- `movie['overview'] or "No overview available."` (line 54). -/
def pyOverview (m : RawMovie) : String :=
  match m.overview with
  | some s => if s = "" then "No overview available." else s
  | none => "No overview available."

/-- Lines 56-61: `release_year` is `None` unless `release_date` is truthy
(present and non-empty) and parses, in which case it is the parsed year. -/
def pyReleaseYear (m : RawMovie) : Option Nat :=
  match m.release_date with
  | some s =>
    if s = "" then none
    else match parseDateYMD s with
      | some ymd => some ymd.1
      | none => none
  | none => none

/-- Line 63: `round(movie['vote_average'], 1) if ... is not None else 0.0`. -/
def pyRating (m : RawMovie) : ℚ :=
  match m.vote_average with
  | some v => round1 v
  | none => 0

/-- Line 64: `f"{POSTER_BASE_URL}{movie['poster_path']}" if movie['poster_path'] else None`. -/
def pyPosterUrl (m : RawMovie) : Option String :=
  match m.poster_path with
  | some s => if s = "" then none else some (POSTER_BASE_URL ++ s)
  | none => none

/-- The dictionary appended to `transformed_movies` (lines 70-77). -/
def transform_movie (m : RawMovie) : TransformedMovie :=
  { id := m.id
    title := pyTitle m
    overview := pyOverview m
    release_year := pyReleaseYear m
    rating := pyRating m
    poster_url := pyPosterUrl m }

/-- Line 67: `f"Movie Title: {title}. Overview: {overview}"`. -/
def semantic_text (m : RawMovie) : String :=
  "Movie Title: " ++ pyTitle m ++ ". Overview: " ++ pyOverview m

/-- Lines 88-89: `for i, movie in enumerate(transformed_movies):
movie['embedding'] = embeddings[i]`.  Raises `IndexError` when the
provider returned fewer vectors than there are movies; surplus vectors
are silently ignored. -/
def attach_embeddings : List TransformedMovie → List (List ℚ) →
    Except PyError (List MovieWithEmbedding)
  | [], _ => .ok []
  | _ :: _, [] => .error .indexError
  | tm :: tms, e :: es =>
    match attach_embeddings tms es with
    | .ok rest => .ok ({ movie := tm, embedding := e } :: rest)
    | .error err => .error err

/-- `transform_and_embed_batch` (lines 45-92).  The loop over `movies_raw`
builds the parallel lists of semantic texts and transformed dictionaries;
the single provider call is the `embed` oracle (it may fail); the vectors
are then attached positionally.  No length or alignment check is made on
the provider response. -/
def transform_and_embed_batch
    (embed : List String → Except PyError (List (List ℚ)))
    (movies_raw : List RawMovie) : Except PyError (List MovieWithEmbedding) :=
  match embed (movies_raw.map semantic_text) with
  | .error e => .error e
  | .ok embeddings => attach_embeddings (movies_raw.map transform_movie) embeddings

/-! ### Upsert (`upsert_production_movies`, embed.py lines 94-120)

The production relation `public.movies_production` is modelled as an
ordered list of rows with `id` as the conflict key.  The `INSERT ...
ON CONFLICT (id) DO UPDATE SET` statement replaces every non-key field of
the existing row when the id is present and inserts a new row otherwise.
Whether an individual `cursor.execute` raises is outside the program
(connectivity, constraint failures), so it is a parameter: a predicate
`fails` on the record being written.  `conn.commit()` runs exactly once,
after the loop; an exception in the loop therefore leaves the committed
relation untouched (transaction rollback). -/

abbrev Table := List MovieWithEmbedding

/-- The conflict key of a row: the `id` column. -/
def rowId (r : MovieWithEmbedding) : Int := r.movie.id

/-- The list of `id` values of the relation, in row order. -/
def keys (t : Table) : List Int := t.map rowId

/-- Whether a row with id `i` is present. -/
def hasId (t : Table) (i : Int) : Bool := t.any (fun r => rowId r = i)

/-- The row with id `i`, if any (first match). -/
def lookupId (i : Int) (t : Table) : Option MovieWithEmbedding :=
  t.find? (fun r => rowId r = i)

/-- One `INSERT ... ON CONFLICT (id) DO UPDATE` statement (lines 98-108):
update all non-key fields of the row with the same id when it exists,
insert the row otherwise. -/
def upsertRow (t : Table) (r : MovieWithEmbedding) : Table :=
  if hasId t (rowId r) then
    t.map (fun x => if rowId x = rowId r then r else x)
  else t ++ [r]

/-- The effect on the relation of executing the upsert statement for each
record in order (the `for movie in transformed_movies` loop). -/
def upsertBatch (t : Table) (rs : List MovieWithEmbedding) : Table :=
  rs.foldl upsertRow t

/-- The per-record execute loop (lines 109-118) acting on the
transaction-local state: stops at the first failing write. -/
def runWrites (fails : MovieWithEmbedding → Bool) :
    Table → List MovieWithEmbedding → Except PyError Table
  | cur, [] => .ok cur
  | cur, r :: rs =>
    if fails r then .error .dbWriteError
    else runWrites fails (upsertRow cur r) rs

/-- `upsert_production_movies` (lines 94-120): run every write, then
`conn.commit()` once.  The first component is the committed relation after
the call (unchanged if the transaction never commits); the second is the
Python return value — `None` on success (the function has no `return`
statement), or the escaping exception. -/
def upsert_production_movies (fails : MovieWithEmbedding → Bool)
    (committed : Table) (rs : List MovieWithEmbedding) :
    Table × Except PyError (Option Nat) :=
  match runWrites fails committed rs with
  | .ok cur => (cur, .ok none)
  | .error e => (committed, .error e)

/-! ### The `__main__` block (embed.py lines 141-161) -/

/-- Observable outcome of one run of the `__main__` block: the committed
production relation, how many rows the run wrote, whether the embedding
call and the upsert were reached, and the caught exception if any. -/
structure RunResult where
  prod : Table
  written : Nat
  embedCalled : Bool
  upsertCalled : Bool
  error : Option PyError
deriving DecidableEq

/-- The pipeline run (lines 147-154): fetch staging; when it is non-empty
transform-and-embed then upsert, otherwise do nothing.  Any exception is
caught by the `except` clause (line 156) and recorded; schema bootstrap
and connection handling do not touch the data and are omitted. -/
def run_pipeline (embed : List String → Except PyError (List (List ℚ)))
    (fails : MovieWithEmbedding → Bool)
    (raw_movies : List RawMovie) (prod : Table) : RunResult :=
  if raw_movies.isEmpty then
    { prod := prod, written := 0, embedCalled := false,
      upsertCalled := false, error := none }
  else
    match transform_and_embed_batch embed raw_movies with
    | .error e =>
      { prod := prod, written := 0, embedCalled := true,
        upsertCalled := false, error := some e }
    | .ok transformed_movies =>
      match upsert_production_movies fails prod transformed_movies with
      | (t, .ok _) =>
        { prod := t, written := transformed_movies.length,
          embedCalled := true, upsertCalled := true, error := none }
      | (t, .error e) =>
        { prod := t, written := 0, embedCalled := true,
          upsertCalled := true, error := some e }

/-- The last record of `rs` whose id is `i`, if any: the write that ends
up visible after upserting `rs` in order. -/
def lastWrite (i : Int) : List MovieWithEmbedding → Option MovieWithEmbedding
  | [] => none
  | r :: rs =>
    match lastWrite i rs with
    | some x => some x
    | none => if rowId r = i then some r else none

/-! ### The specification's strict date shape -/

/-- The spec's strict `YYYY-MM-DD` shape, stated from the specification's
words (not from the code): exactly ten characters — four digits, a dash,
two digits, a dash, two digits — whose values form a valid calendar date.
Used to compare the spec's notion of a well-formed date with the code's
parser. -/
def isStrictDate (s : String) : Bool :=
  match s.toList with
  | [y1, y2, y3, y4, c1, m1, m2, c2, d1, d2] =>
    decide (isDig y1 = true ∧ isDig y2 = true ∧ isDig y3 = true ∧
      isDig y4 = true ∧ c1 = '-' ∧ isDig m1 = true ∧ isDig m2 = true ∧
      c2 = '-' ∧ isDig d1 = true ∧ isDig d2 = true ∧
      1 ≤ digitsToNat [y1, y2, y3, y4] ∧
      1 ≤ digitsToNat [m1, m2] ∧ digitsToNat [m1, m2] ≤ 12 ∧
      1 ≤ digitsToNat [d1, d2] ∧
      digitsToNat [d1, d2] ≤
        daysInMonth (digitsToNat [y1, y2, y3, y4]) (digitsToNat [m1, m2]))
  | _ => false

/-- The year written in the first four characters of a strict date. -/
def strictYear (s : String) : Nat := digitsToNat (s.toList.take 4)

/-! ### Concrete records used in scenario checks -/

/-- The spec's section-8 scenario record. -/
def rawAlpha : RawMovie :=
  { id := 1, title := some "Alpha", overview := none,
    poster_path := some "/a.jpg", release_date := some "2020-05-01",
    vote_average := some (786/100) }

/-- A raw record whose release_date uses single-digit month and day. -/
def rawSingleDigitDate : RawMovie :=
  { id := 7, title := some "T", overview := some "o", poster_path := none,
    release_date := some "2020-5-1", vote_average := none }

/-- A raw record whose vote_average lies above 10. -/
def rawOverTen : RawMovie :=
  { id := 2, title := some "B", overview := some "o", poster_path := none,
    release_date := none, vote_average := some 12 }

/-- A raw record whose overview is the empty string (present, not null). -/
def rawEmptyOverview : RawMovie :=
  { id := 3, title := some "C", overview := some "", poster_path := none,
    release_date := none, vote_average := none }

/-- Two distinct raw records for batch-level checks. -/
def rawA : RawMovie :=
  { id := 10, title := some "A", overview := some "a", poster_path := none,
    release_date := none, vote_average := none }

def rawB : RawMovie :=
  { id := 11, title := some "B", overview := some "b", poster_path := none,
    release_date := none, vote_average := none }

/-- Concrete production rows built from `rawA` and `rawB`. -/
def rowA : MovieWithEmbedding :=
  { movie := transform_movie rawA, embedding := [1] }

def rowB : MovieWithEmbedding :=
  { movie := transform_movie rawB, embedding := [2] }

/-- A provider response with the right number of vectors but in the wrong
order relative to the inputs. -/
def shuffledResponse : List String → Except PyError (List (List ℚ)) :=
  fun _ => .ok [[2], [1]]

/-- A provider response with one vector too many. -/
def oversizedResponse : List String → Except PyError (List (List ℚ)) :=
  fun _ => .ok [[1], [2], [3]]

/-- A provider response with one vector too few. -/
def shortResponse : List String → Except PyError (List (List ℚ)) :=
  fun _ => .ok [[1]]

/-- A provider response returning exactly one fixed vector. -/
def singleVectorResponse : List String → Except PyError (List (List ℚ)) :=
  fun _ => .ok [[1]]

/-- A write-failure predicate under which no write fails. -/
def neverFails : MovieWithEmbedding → Bool := fun _ => false

/-- An updated row sharing `rowA`'s id but carrying a new embedding. -/
def rowA2 : MovieWithEmbedding :=
  { movie := transform_movie rawA, embedding := [9] }

/-! ### Lemmas about the relation model -/

theorem hasId_iff_mem (t : Table) (i : Int) : hasId t i = true ↔ i ∈ keys t := by
  simp [hasId, keys, List.any_eq_true, List.mem_map]

theorem lookupId_nil (i : Int) : lookupId i [] = none := rfl

theorem lookupId_cons_self (x : MovieWithEmbedding) (t : Table) :
    lookupId (rowId x) (x :: t) = some x := by
  simp [lookupId, List.find?_cons_of_pos]

theorem lookupId_cons_of_eq (x : MovieWithEmbedding) (t : Table) (i : Int)
    (h : rowId x = i) : lookupId i (x :: t) = some x := by
  simp [lookupId, List.find?_cons_of_pos, h]

theorem lookupId_cons_ne (x : MovieWithEmbedding) (t : Table) (i : Int)
    (h : rowId x ≠ i) : lookupId i (x :: t) = lookupId i t := by
  simp [lookupId, List.find?_cons_of_neg, h]

theorem lookupId_eq_none_iff (t : Table) (i : Int) :
    lookupId i t = none ↔ i ∉ keys t := by
  induction t with
  | nil => simp [lookupId, keys]
  | cons x t ih =>
    by_cases hx : rowId x = i
    · rw [lookupId_cons_of_eq _ _ _ hx]
      simp [keys, hx]
    · rw [lookupId_cons_ne _ _ _ hx, ih]
      simp [keys, hx, Ne.symm hx]

theorem rowId_replace (r x : MovieWithEmbedding) :
    rowId (if rowId x = rowId r then r else x) = rowId x := by
  by_cases h : rowId x = rowId r <;> simp [h]

theorem keys_upsertRow (t : Table) (r : MovieWithEmbedding) :
    keys (upsertRow t r) =
      if hasId t (rowId r) then keys t else keys t ++ [rowId r] := by
  unfold upsertRow
  by_cases h : hasId t (rowId r) <;> simp [h, keys, List.map_map]
  exact fun x _ => rowId_replace r x

theorem lookupId_replace_ne (t : Table) (r : MovieWithEmbedding) (i : Int)
    (hi : i ≠ rowId r) :
    lookupId i (t.map (fun x => if rowId x = rowId r then r else x)) =
      lookupId i t := by
  induction t with
  | nil => rfl
  | cons x t ih =>
    by_cases hx : rowId x = i
    · have hfx : (if rowId x = rowId r then r else x) = x := by
        have : rowId x ≠ rowId r := by rw [hx]; exact hi
        simp [this]
      simp only [List.map_cons, hfx]
      rw [lookupId_cons_of_eq _ _ _ hx, lookupId_cons_of_eq _ _ _ hx]
    · have hfx : rowId (if rowId x = rowId r then r else x) ≠ i := by
        rw [rowId_replace]; exact hx
      simp only [List.map_cons]
      rw [lookupId_cons_ne _ _ _ hfx, lookupId_cons_ne _ _ _ hx, ih]

theorem lookupId_replace_self (t : Table) (r : MovieWithEmbedding)
    (h : hasId t (rowId r) = true) :
    lookupId (rowId r) (t.map (fun x => if rowId x = rowId r then r else x)) =
      some r := by
  induction t with
  | nil => simp [hasId] at h
  | cons x t ih =>
    by_cases hx : rowId x = rowId r
    · simp only [List.map_cons, hx, if_pos rfl]
      exact lookupId_cons_self r _
    · have hfx : (if rowId x = rowId r then r else x) = x := by simp [hx]
      have ht : hasId t (rowId r) = true := by
        simp only [hasId, List.any_cons] at h
        rcases Bool.or_eq_true_iff.mp h with h' | h'
        · exact absurd (of_decide_eq_true h') hx
        · exact h'
      simp only [List.map_cons, hfx]
      rw [lookupId_cons_ne _ _ _ hx, ih ht]

theorem lookupId_append_ne (t : Table) (r : MovieWithEmbedding) (i : Int)
    (hi : i ≠ rowId r) : lookupId i (t ++ [r]) = lookupId i t := by
  induction t with
  | nil =>
    simp only [List.nil_append, lookupId_nil]
    exact lookupId_eq_none_iff [r] i |>.mpr (by simp [keys, Ne.symm, hi])
  | cons x t ih =>
    by_cases hx : rowId x = i
    · rw [List.cons_append, lookupId_cons_of_eq _ _ _ hx, lookupId_cons_of_eq _ _ _ hx]
    · rw [List.cons_append, lookupId_cons_ne _ _ _ hx, lookupId_cons_ne _ _ _ hx, ih]

theorem lookupId_append_self (t : Table) (r : MovieWithEmbedding)
    (h : hasId t (rowId r) = false) : lookupId (rowId r) (t ++ [r]) = some r := by
  induction t with
  | nil => exact lookupId_cons_self r []
  | cons x t ih =>
    simp only [hasId, List.any_cons, Bool.or_eq_false_iff] at h
    have hx : rowId x ≠ rowId r := fun hc => by simp [hc] at h
    rw [List.cons_append, lookupId_cons_ne _ _ _ hx]
    exact ih (by simpa [hasId] using h.2)

theorem lookupId_upsertRow (t : Table) (r : MovieWithEmbedding) (i : Int) :
    lookupId i (upsertRow t r) = if i = rowId r then some r else lookupId i t := by
  unfold upsertRow
  by_cases h : hasId t (rowId r) <;> by_cases hi : i = rowId r <;> simp only [h, hi, if_true, if_false, Bool.false_eq_true, ite_true, ite_false]
  · exact lookupId_replace_self t r h
  · exact lookupId_replace_ne t r i hi
  · exact lookupId_append_self t r (by simpa using h)
  · exact lookupId_append_ne t r i hi

theorem upsertBatch_nil (t : Table) : upsertBatch t [] = t := rfl

theorem upsertBatch_cons (t : Table) (r : MovieWithEmbedding)
    (rs : List MovieWithEmbedding) :
    upsertBatch t (r :: rs) = upsertBatch (upsertRow t r) rs := rfl

theorem lookupId_upsertBatch (rs : List MovieWithEmbedding) (t : Table) (i : Int) :
    lookupId i (upsertBatch t rs) =
      match lastWrite i rs with
      | some x => some x
      | none => lookupId i t := by
  induction rs generalizing t with
  | nil => rfl
  | cons r rs ih =>
    rw [upsertBatch_cons, ih]
    cases hlast : lastWrite i rs with
    | some x => simp [lastWrite, hlast]
    | none =>
      simp only [lastWrite, hlast]
      rw [lookupId_upsertRow]
      by_cases hi : i = rowId r
      · simp [hi]
      · rw [if_neg hi, if_neg (fun h => hi (Eq.symm h))]

theorem mem_keys_upsertRow_self (t : Table) (r : MovieWithEmbedding) :
    rowId r ∈ keys (upsertRow t r) := by
  rw [keys_upsertRow]
  by_cases h : hasId t (rowId r)
  · simp only [h, if_true]
    exact (hasId_iff_mem t (rowId r)).mp h
  · simp [h]

theorem mem_keys_upsertRow_of_mem (t : Table) (r : MovieWithEmbedding) (i : Int)
    (h : i ∈ keys t) : i ∈ keys (upsertRow t r) := by
  rw [keys_upsertRow]
  by_cases hc : hasId t (rowId r) <;> simp [hc, h]

theorem mem_keys_upsertBatch_of_mem (rs : List MovieWithEmbedding) (t : Table)
    (i : Int) (h : i ∈ keys t) : i ∈ keys (upsertBatch t rs) := by
  induction rs generalizing t with
  | nil => exact h
  | cons r rs ih => exact ih (upsertRow t r) (mem_keys_upsertRow_of_mem t r i h)

theorem mem_keys_upsertBatch (rs : List MovieWithEmbedding) (t : Table)
    (r : MovieWithEmbedding) (hr : r ∈ rs) : rowId r ∈ keys (upsertBatch t rs) := by
  induction rs generalizing t with
  | nil => cases hr
  | cons r' rs ih =>
    rw [upsertBatch_cons]
    rcases List.mem_cons.mp hr with h | h
    · subst h
      exact mem_keys_upsertBatch_of_mem rs _ _ (mem_keys_upsertRow_self t r)
    · exact ih _ h

theorem keys_upsertBatch_stable (rs : List MovieWithEmbedding) (t : Table)
    (h : ∀ r ∈ rs, rowId r ∈ keys t) : keys (upsertBatch t rs) = keys t := by
  induction rs generalizing t with
  | nil => rfl
  | cons r rs ih =>
    have hr : hasId t (rowId r) = true :=
      (hasId_iff_mem t (rowId r)).mpr (h r (List.mem_cons_self r rs))
    have hk : keys (upsertRow t r) = keys t := by
      rw [keys_upsertRow, hr, if_pos rfl]
    rw [upsertBatch_cons, ih (upsertRow t r) (fun r' hr' => by
      rw [hk]; exact h r' (List.mem_cons_of_mem r hr')), hk]

theorem nodup_keys_upsertRow (t : Table) (r : MovieWithEmbedding)
    (h : (keys t).Nodup) : (keys (upsertRow t r)).Nodup := by
  rw [keys_upsertRow]
  by_cases hc : hasId t (rowId r)
  · simpa [hc] using h
  · have : rowId r ∉ keys t := fun hm => hc ((hasId_iff_mem t (rowId r)).mpr hm)
    simp [hc, List.nodup_append, h, this]

theorem nodup_keys_upsertBatch (rs : List MovieWithEmbedding) (t : Table)
    (h : (keys t).Nodup) : (keys (upsertBatch t rs)).Nodup := by
  induction rs generalizing t with
  | nil => exact h
  | cons r rs ih => exact ih (upsertRow t r) (nodup_keys_upsertRow t r h)

/-- A relation with distinct ids is determined by its id column and the
row each id maps to. -/
theorem table_ext (t₁ t₂ : Table) (hnd : (keys t₁).Nodup)
    (hk : keys t₁ = keys t₂) (hl : ∀ i, lookupId i t₁ = lookupId i t₂) :
    t₁ = t₂ := by
  induction t₁ generalizing t₂ with
  | nil =>
    cases t₂ with
    | nil => rfl
    | cons y t₂ => simp [keys] at hk
  | cons x t₁ ih =>
    cases t₂ with
    | nil => simp [keys] at hk
    | cons y t₂ =>
      simp only [keys, List.map_cons, List.cons.injEq] at hk
      have hxy : x = y := by
        have hx := lookupId_cons_of_eq x t₁ (rowId x) rfl
        have hy := lookupId_cons_of_eq y t₂ (rowId x) hk.1.symm
        have := (hl (rowId x)).symm.trans hx
        rw [hy] at this
        exact (Option.some.inj this).symm
      subst hxy
      simp only [keys, List.map_cons, List.nodup_cons] at hnd
      have htail : ∀ i, lookupId i t₁ = lookupId i t₂ := by
        intro i
        by_cases hi : rowId x = i
        · subst hi
          have h₁ : lookupId (rowId x) t₁ = none :=
            (lookupId_eq_none_iff t₁ (rowId x)).mpr hnd.1
          have h₂ : lookupId (rowId x) t₂ = none :=
            (lookupId_eq_none_iff t₂ (rowId x)).mpr (by
              show rowId x ∉ List.map rowId t₂
              rw [← hk.2]
              exact hnd.1)
          rw [h₁, h₂]
        · have := hl i
          rw [lookupId_cons_ne x t₁ i hi, lookupId_cons_ne x t₂ i hi] at this
          exact this
      exact congrArg (x :: ·) (ih t₂ hnd.2 hk.2 htail)

/-- Re-upserting the same batch leaves the relation unchanged. -/
theorem upsertBatch_idem (t : Table) (rs : List MovieWithEmbedding)
    (hnd : (keys t).Nodup) :
    upsertBatch (upsertBatch t rs) rs = upsertBatch t rs := by
  apply table_ext
  · exact nodup_keys_upsertBatch rs _ (nodup_keys_upsertBatch rs t hnd)
  · exact keys_upsertBatch_stable rs _ (fun r hr => mem_keys_upsertBatch rs t r hr)
  · intro i
    rw [lookupId_upsertBatch, lookupId_upsertBatch]
    cases lastWrite i rs <;> simp

theorem runWrites_ok (fails : MovieWithEmbedding → Bool)
    (rs : List MovieWithEmbedding) (t : Table)
    (h : ∀ r ∈ rs, fails r = false) :
    runWrites fails t rs = .ok (upsertBatch t rs) := by
  induction rs generalizing t with
  | nil => rfl
  | cons r rs ih =>
    have hr : fails r = false := h r (List.mem_cons_self r rs)
    simp only [runWrites, hr, Bool.false_eq_true, if_false, upsertBatch_cons]
    exact ih (upsertRow t r) (fun r' hr' => h r' (List.mem_cons_of_mem r hr'))

theorem runWrites_error (fails : MovieWithEmbedding → Bool)
    (rs : List MovieWithEmbedding) (t : Table)
    (h : ∃ r ∈ rs, fails r = true) :
    runWrites fails t rs = .error .dbWriteError := by
  induction rs generalizing t with
  | nil => obtain ⟨r, hr, _⟩ := h; cases hr
  | cons r rs ih =>
    by_cases hr : fails r = true
    · simp [runWrites, hr]
    · obtain ⟨r', hr', hf⟩ := h
      rcases List.mem_cons.mp hr' with h' | h'
      · subst h'; exact absurd hf hr
      · have hf0 : fails r = false := by simpa using hr
        simp only [runWrites, hf0, Bool.false_eq_true, if_false]
        exact ih _ ⟨r', h', hf⟩

/-! ### Lemmas about attaching embeddings -/

theorem attach_embeddings_ok (tms : List TransformedMovie) (es : List (List ℚ))
    (h : tms.length ≤ es.length) :
    attach_embeddings tms es =
      .ok ((tms.zip es).map fun p => { movie := p.1, embedding := p.2 }) := by
  induction tms generalizing es with
  | nil => simp [attach_embeddings]
  | cons tm tms ih =>
    cases es with
    | nil => simp at h
    | cons e es =>
      simp only [List.length_cons, Nat.add_le_add_iff_right] at h
      simp [attach_embeddings, ih es h, List.zip_cons_cons]

theorem attach_embeddings_short (tms : List TransformedMovie)
    (es : List (List ℚ)) (h : es.length < tms.length) :
    attach_embeddings tms es = .error .indexError := by
  induction tms generalizing es with
  | nil => simp at h
  | cons tm tms ih =>
    cases es with
    | nil => rfl
    | cons e es =>
      simp only [List.length_cons, Nat.add_lt_add_iff_right] at h
      simp [attach_embeddings, ih es h]

/-! ### Lemmas about digits and date parsing -/

theorem digVal_le_nine (c : Char) (h : isDig c = true) : digVal c ≤ 9 := by
  simp only [isDig, Bool.or_eq_true, decide_eq_true_eq, or_assoc] at h
  rcases h with h | h | h | h | h | h | h | h | h | h <;> subst h <;> decide

theorem digitsToNat_foldl_lt (ds : List Char) (h : ∀ c ∈ ds, isDig c = true) :
    ∀ a : Nat, ds.foldl (fun a c => a * 10 + digVal c) a < (a + 1) * 10 ^ ds.length := by
  induction ds with
  | nil => intro a; simp
  | cons c ds ih =>
    intro a
    have hc : digVal c ≤ 9 := digVal_le_nine c (h c (List.mem_cons_self c ds))
    have hds : ∀ c ∈ ds, isDig c = true := fun c hc => h c (List.mem_cons_of_mem _ hc)
    calc (c :: ds).foldl (fun a c => a * 10 + digVal c) a
        = ds.foldl (fun a c => a * 10 + digVal c) (a * 10 + digVal c) := rfl
      _ < (a * 10 + digVal c + 1) * 10 ^ ds.length := ih hds _
      _ ≤ ((a + 1) * 10) * 10 ^ ds.length := by
          apply Nat.mul_le_mul_right
          omega
      _ = (a + 1) * 10 ^ (c :: ds).length := by
          rw [List.length_cons, Nat.mul_assoc, ← Nat.pow_succ']

theorem digitsToNat_lt (ds : List Char) (h : ∀ c ∈ ds, isDig c = true) :
    digitsToNat ds < 10 ^ ds.length := by
  simpa using digitsToNat_foldl_lt ds h 0

theorem takeDigits_all_digits (cs : List Char) :
    ∀ c ∈ (takeDigits cs).1, isDig c = true := by
  induction cs with
  | nil => intro c hc; cases hc
  | cons x cs ih =>
    by_cases hx : isDig x
    · intro c hc
      simp only [takeDigits, hx, if_true] at hc
      rcases List.mem_cons.mp hc with h | h
      · subst h; exact hx
      · exact ih c h
    · intro c hc
      simp [takeDigits, hx] at hc

theorem takeDigits_cons_dig (c : Char) (cs : List Char) (h : isDig c = true) :
    takeDigits (c :: cs) = (c :: (takeDigits cs).1, (takeDigits cs).2) := by
  simp [takeDigits, h]

theorem takeDigits_cons_nondig (c : Char) (cs : List Char) (h : isDig c = false) :
    takeDigits (c :: cs) = ([], c :: cs) := by
  simp [takeDigits, h]

theorem takeDigits_nil : takeDigits [] = ([], []) := rfl

/-- Any successful `strptime('%Y-%m-%d')` yields a year between 1 and
9999: the year group is exactly four digits, and `datetime` rejects
year 0. -/
theorem parseDateYMD_year_bounds (s : String) (y m d : Nat)
    (h : parseDateYMD s = some (y, m, d)) : 1 ≤ y ∧ y ≤ 9999 := by
  simp only [parseDateYMD] at h
  split at h
  · split at h
    · split at h
      · split at h
        · rename_i hlen hval
          injection h with h'
          injection h' with h1 h23
          subst h1
          refine ⟨hval.1, ?_⟩
          have hlt := digitsToNat_lt _ (takeDigits_all_digits s.toList)
          rw [hlen.2.1] at hlt
          omega
        · cases h
      · cases h
    · cases h
  · cases h

theorem isDig_dash : isDig '-' = false := rfl

/-- The code's parser accepts every strict `YYYY-MM-DD` string and
returns its four-digit year. -/
theorem parseDateYMD_of_strict (s : String) (h : isStrictDate s = true) :
    ∃ m d, parseDateYMD s = some (strictYear s, m, d) := by
  unfold isStrictDate at h
  split at h
  case _ y1 y2 y3 y4 c1 m1 m2 c2 d1 d2 heq =>
    obtain ⟨hy1, hy2, hy3, hy4, hc1, hm1, hm2, hc2, hd1, hd2,
      hyv, hm1v, hm2v, hd1v, hd2v⟩ := of_decide_eq_true h
    subst hc1
    subst hc2
    refine ⟨digitsToNat [m1, m2], digitsToNat [d1, d2], ?_⟩
    unfold parseDateYMD strictYear
    rw [heq]
    simp only [takeDigits_cons_dig _ _ hy1, takeDigits_cons_dig _ _ hy2,
      takeDigits_cons_dig _ _ hy3, takeDigits_cons_dig _ _ hy4,
      takeDigits_cons_dig _ _ hm1, takeDigits_cons_dig _ _ hm2,
      takeDigits_cons_dig _ _ hd1, takeDigits_cons_dig _ _ hd2,
      takeDigits_cons_nondig _ _ isDig_dash, takeDigits_nil]
    simp only [List.take, List.length_cons, List.length_nil]
    simp [hyv, hm1v, hm2v, hd1v, hd2v]
  case _ => cases h

/-! ### Bounds for the rounding function -/

theorem roundHalfEven_ge (q : ℚ) : q - 1/2 ≤ (roundHalfEven q : ℚ) := by
  have h1 : (⌊q⌋ : ℚ) ≤ q := Int.floor_le q
  have h2 : q < ⌊q⌋ + 1 := Int.lt_floor_add_one q
  simp only [roundHalfEven]
  split_ifs with ha hb hc <;> push_cast <;> linarith

theorem roundHalfEven_le (q : ℚ) : (roundHalfEven q : ℚ) ≤ q + 1/2 := by
  have h1 : (⌊q⌋ : ℚ) ≤ q := Int.floor_le q
  have h2 : q < ⌊q⌋ + 1 := Int.lt_floor_add_one q
  simp only [roundHalfEven]
  split_ifs with ha hb hc <;> push_cast <;> linarith

theorem round1_nonneg (q : ℚ) (h : 0 ≤ q) : 0 ≤ round1 q := by
  have hge := roundHalfEven_ge (10 * q)
  have hz : (-1 : ℚ) < (roundHalfEven (10 * q) : ℚ) := by linarith
  have hz' : (-1 : ℤ) < roundHalfEven (10 * q) := by exact_mod_cast hz
  have hnn : (0 : ℤ) ≤ roundHalfEven (10 * q) := by omega
  have hnn' : (0 : ℚ) ≤ (roundHalfEven (10 * q) : ℚ) := by exact_mod_cast hnn
  unfold round1
  linarith

theorem round1_le_ten (q : ℚ) (h : q ≤ 10) : round1 q ≤ 10 := by
  have hle := roundHalfEven_le (10 * q)
  have h101 : (roundHalfEven (10 * q) : ℚ) < 101 := by linarith
  have h101' : roundHalfEven (10 * q) < 101 := by exact_mod_cast h101
  have h100 : roundHalfEven (10 * q) ≤ 100 := by omega
  have h100' : (roundHalfEven (10 * q) : ℚ) ≤ 100 := by exact_mod_cast h100
  unfold round1
  linarith

theorem roundHalfEven_eq_floor (q : ℚ) (z : ℤ) (hfl : ⌊q⌋ = z)
    (hlt : q - z < 1/2) : roundHalfEven q = z := by
  simp only [roundHalfEven, hfl]
  rw [if_pos hlt]

theorem roundHalfEven_eq_floor_add_one (q : ℚ) (z : ℤ) (hfl : ⌊q⌋ = z)
    (hlt : 1/2 < q - z) : roundHalfEven q = z + 1 := by
  simp only [roundHalfEven, hfl]
  rw [if_neg (by linarith), if_pos hlt]

theorem round1_786 : round1 ((786 : ℚ)/100) = 79/10 := by
  have hfl : ⌊(10 : ℚ) * (786/100)⌋ = 78 := by
    rw [Int.floor_eq_iff]
    constructor <;> norm_num
  rw [round1, roundHalfEven_eq_floor_add_one _ 78 hfl (by push_cast; norm_num)]
  norm_num

theorem round1_twelve : round1 (12 : ℚ) = 12 := by
  have hfl : ⌊(10 : ℚ) * 12⌋ = 120 := by
    rw [Int.floor_eq_iff]
    constructor <;> norm_num
  rw [round1, roundHalfEven_eq_floor _ 120 hfl (by push_cast; norm_num)]
  norm_num

/-! ### The embedding text is never empty -/

theorem semantic_text_ne_empty (m : RawMovie) : semantic_text m ≠ "" := by
  intro hc
  have hlen := congrArg String.length hc
  simp only [semantic_text, String.length_append] at hlen
  have h1 : ("Movie Title: ").length = 13 := rfl
  have h2 : (". Overview: ").length = 12 := rfl
  have h3 : ("" : String).length = 0 := rfl
  omega

/-! ### Claim theorems -/

/-- C4, counterexample: the string "2020-5-1" is not a valid date in
strict `YYYY-MM-DD` form (its month and day are single digits), yet
normalization parses it and sets release_year to 2020 rather than to
absent — `strptime`'s `%m` and `%d` accept one-digit fields. -/
theorem release_year_malformed_not_absent :
    isStrictDate "2020-5-1" = false ∧
    (transform_movie rawSingleDigitDate).release_year = some 2020 := by
  constructor
  · decide
  · decide

/-- C4, amended: for every raw record whose release_date is a valid date
in strict `YYYY-MM-DD` form, normalization sets release_year to the
parsed year, and the resulting release_year is always either a year in
1..9999 or absent, never raising; however malformed dates are sent to
absent only when the code's parser rejects them — the parser also accepts
single-digit month and day fields, so not every string outside strict
`YYYY-MM-DD` form yields an absent year. -/
theorem release_year_parsed_or_absent (m : RawMovie) :
    (∀ s, m.release_date = some s → isStrictDate s = true →
      (transform_movie m).release_year = some (strictYear s)) ∧
    (∀ y, (transform_movie m).release_year = some y → 1 ≤ y ∧ y ≤ 9999) := by
  constructor
  · intro s hs hstrict
    obtain ⟨mo, d, hp⟩ := parseDateYMD_of_strict s hstrict
    have hne : s ≠ "" := by
      intro h0
      rw [h0] at hstrict
      exact absurd hstrict (by decide)
    show pyReleaseYear m = some (strictYear s)
    rw [pyReleaseYear, hs]
    simp only [if_neg hne, hp]
  · intro y hy
    have hy' : pyReleaseYear m = some y := hy
    rw [pyReleaseYear] at hy'
    cases hrd : m.release_date with
    | none => rw [hrd] at hy'; simp at hy'
    | some s =>
      rw [hrd] at hy'
      have hy2 : (if s = "" then none
          else match parseDateYMD s with
            | some ymd => some ymd.1
            | none => none) = some y := hy'
      by_cases h0 : s = ""
      · rw [if_pos h0] at hy2; simp at hy2
      · rw [if_neg h0] at hy2
        cases hp : parseDateYMD s with
        | none => rw [hp] at hy2; simp at hy2
        | some ymd =>
          obtain ⟨y1, m1, d1⟩ := ymd
          rw [hp] at hy2
          have hy3 : some y1 = some y := hy2
          injection hy3 with hy4
          subst hy4
          exact parseDateYMD_year_bounds s y1 m1 d1 hp

/-- C4, witness: instantiating the amended claim at the scenario record,
whose release_date "2020-05-01" is strict, yields year 2020 with the
bounds 1 ≤ 2020 ≤ 9999. -/
theorem release_year_parsed_or_absent_witness :
    (transform_movie rawAlpha).release_year = some (strictYear "2020-05-01") ∧
    (1 ≤ 2020 ∧ 2020 ≤ 9999) := by
  constructor
  · exact (release_year_parsed_or_absent rawAlpha).1 "2020-05-01" rfl (by decide)
  · exact (release_year_parsed_or_absent rawAlpha).2 2020 (by decide)

/-- C5, counterexample: normalization performs no clamping, so the raw
record with vote_average 12 produces rating 12, which lies outside
[0.0, 10.0] — the claim's range invariant fails. -/
theorem rating_can_exceed_ten :
    (transform_movie rawOverTen).rating = 12 ∧
    ¬((transform_movie rawOverTen).rating ≤ 10) := by
  have h : (transform_movie rawOverTen).rating = 12 := by
    have h0 : (transform_movie rawOverTen).rating = round1 12 := rfl
    rw [h0, round1_twelve]
  refine ⟨h, ?_⟩
  rw [h]
  norm_num

/-- C5, amended: the normalized rating is always present; it equals
vote_average rounded to one decimal place when vote_average is present
and defaults to 0.0 when absent; it lies within [0.0, 10.0] whenever the
source vote_average does (the code applies no clamping, so out-of-range
inputs produce out-of-range ratings). -/
theorem rating_rounded_with_default (m : RawMovie) :
    (m.vote_average = none → (transform_movie m).rating = 0) ∧
    (∀ v, m.vote_average = some v → (transform_movie m).rating = round1 v) ∧
    (∀ v, m.vote_average = some v → 0 ≤ v → v ≤ 10 →
      0 ≤ (transform_movie m).rating ∧ (transform_movie m).rating ≤ 10) := by
  refine ⟨?_, ?_, ?_⟩
  · intro h
    show pyRating m = 0
    rw [pyRating, h]
  · intro v h
    show pyRating m = round1 v
    rw [pyRating, h]
  · intro v h h0 h10
    have hr : (transform_movie m).rating = round1 v := by
      show pyRating m = round1 v
      rw [pyRating, h]
    rw [hr]
    exact ⟨round1_nonneg v h0, round1_le_ten v h10⟩

/-- C5, witness: instantiating the amended claim at the scenario record
(vote_average 7.86): the rating is 7.9, which lies within [0, 10]. -/
theorem rating_rounded_with_default_witness :
    (transform_movie rawAlpha).rating = round1 (786/100) ∧
    (0 ≤ (transform_movie rawAlpha).rating ∧ (transform_movie rawAlpha).rating ≤ 10) := by
  constructor
  · exact (rating_rounded_with_default rawAlpha).2.1 (786/100) rfl
  · exact (rating_rounded_with_default rawAlpha).2.2 (786/100) rfl
      (by norm_num) (by norm_num)

/-- C6: normalizing the spec's scenario record {id 1, title "Alpha",
null overview, poster "/a.jpg", release_date "2020-05-01",
vote_average 7.86} yields exactly the canonical record with the
placeholder overview, release_year 2020, rating 7.9 and the concatenated
poster URL; and in general the embedding text is never empty and always
follows the template "Movie Title: <title>. Overview: <overview>" built
from the canonical title and overview. -/
theorem scenario_alpha_normalization :
    transform_movie rawAlpha =
      { id := 1, title := "Alpha", overview := "No overview available.",
        release_year := some 2020, rating := 79/10,
        poster_url := some (POSTER_BASE_URL ++ "/a.jpg") } ∧
    semantic_text rawAlpha =
      "Movie Title: Alpha. Overview: No overview available." ∧
    (∀ m : RawMovie, semantic_text m ≠ "" ∧
      semantic_text m = "Movie Title: " ++ (transform_movie m).title ++
        ". Overview: " ++ (transform_movie m).overview) := by
  refine ⟨?_, by decide, fun m => ⟨semantic_text_ne_empty m, rfl⟩⟩
  show ({ id := rawAlpha.id, title := pyTitle rawAlpha,
          overview := pyOverview rawAlpha,
          release_year := pyReleaseYear rawAlpha,
          rating := pyRating rawAlpha,
          poster_url := pyPosterUrl rawAlpha } : TransformedMovie) = _
  have hr : pyRating rawAlpha = 79/10 := by
    rw [show pyRating rawAlpha = round1 (786/100) from rfl, round1_786]
  rw [hr]
  simp only [TransformedMovie.mk.injEq]
  refine ⟨by decide, by decide, by decide, by decide, trivial, by decide⟩

/-- C9: a present-but-empty overview is falsy in Python, so the `or`
default replaces it with the placeholder; consequently the canonical
overview is never the empty string. -/
theorem empty_overview_defaulted (m : RawMovie) :
    (m.overview = some "" → (transform_movie m).overview = "No overview available.") ∧
    (transform_movie m).overview ≠ "" := by
  constructor
  · intro h
    show pyOverview m = "No overview available."
    rw [pyOverview, h]
    simp
  · show pyOverview m ≠ ""
    rw [pyOverview]
    cases hov : m.overview with
    | none => decide
    | some s =>
      by_cases h0 : s = ""
      · simp [h0]
      · simp [h0]

/-- C9, witness: the record whose overview is the empty string gets the
placeholder, which is non-empty. -/
theorem empty_overview_defaulted_witness :
    (transform_movie rawEmptyOverview).overview = "No overview available." ∧
    (transform_movie rawEmptyOverview).overview ≠ "" :=
  ⟨(empty_overview_defaulted rawEmptyOverview).1 rfl,
   (empty_overview_defaulted rawEmptyOverview).2⟩

/-- C2, counterexample: the normalization-to-upsert wiring contains no
alignment or length assertion.  A provider response with the right number
of vectors but shuffled order is attached positionally with no error
(record A receives the vector at position 0 even when it is B's), and a
response with one vector too many also succeeds; neither raises an
EmbeddingProviderError. -/
theorem no_alignment_assertion :
    transform_and_embed_batch shuffledResponse [rawA, rawB] =
      .ok [{ movie := transform_movie rawA, embedding := [2] },
           { movie := transform_movie rawB, embedding := [1] }] ∧
    transform_and_embed_batch oversizedResponse [rawA, rawB] =
      .ok [{ movie := transform_movie rawA, embedding := [1] },
           { movie := transform_movie rawB, embedding := [2] }] ∧
    transform_and_embed_batch oversizedResponse [rawA, rawB] ≠
      .error .embeddingProviderError := by
  refine ⟨rfl, rfl, ?_⟩
  intro h
  cases h

/-- C2, amended: the wiring performs no alignment check at all.  Whenever
the provider response carries at least as many vectors as input records —
shuffled or oversized included — the batch succeeds and vector i is
attached to record i blindly; only a response with fewer vectors than
records aborts the run, and it does so with an out-of-range index error,
not with an EmbeddingProviderError raised by an assertion. -/
theorem transform_and_embed_no_detection
    (embed : List String → Except PyError (List (List ℚ)))
    (movies : List RawMovie) (es : List (List ℚ))
    (h : embed (movies.map semantic_text) = .ok es) :
    (movies.length ≤ es.length →
      transform_and_embed_batch embed movies =
        .ok (((movies.map transform_movie).zip es).map
          fun p => { movie := p.1, embedding := p.2 })) ∧
    (es.length < movies.length →
      transform_and_embed_batch embed movies = .error .indexError) := by
  constructor <;> intro hlen <;> rw [transform_and_embed_batch, h]
  · exact attach_embeddings_ok _ _ (by simpa using hlen)
  · exact attach_embeddings_short _ _ (by simpa using hlen)

/-- C2, witness: a shuffled same-size response is accepted, and a
one-short response yields an index error. -/
theorem transform_and_embed_no_detection_witness :
    transform_and_embed_batch shuffledResponse [rawA, rawB] =
      .ok ((([rawA, rawB].map transform_movie).zip [[2], [1]]).map
        fun p => { movie := p.1, embedding := p.2 }) ∧
    transform_and_embed_batch shortResponse [rawA, rawB] = .error .indexError := by
  constructor
  · exact (transform_and_embed_no_detection shuffledResponse
      [rawA, rawB] [[2], [1]] rfl).1 (by decide)
  · exact (transform_and_embed_no_detection shortResponse
      [rawA, rawB] [[1]] rfl).2 (by decide)

/-- C10: when the provider returns enough vectors, the transform-and-embed
stage returns a list of the same length as its input, in the same order:
the i-th output record carries the identifier of the i-th input raw
record — nothing dropped, duplicated, or reordered. -/
theorem transform_preserves_length_and_order
    (embed : List String → Except PyError (List (List ℚ)))
    (movies : List RawMovie) (es : List (List ℚ))
    (h : embed (movies.map semantic_text) = .ok es)
    (hlen : movies.length ≤ es.length) :
    ∃ out, transform_and_embed_batch embed movies = .ok out ∧
      out.length = movies.length ∧
      ∀ i (hi : i < out.length) (hi' : i < movies.length),
        (out.get ⟨i, hi⟩).movie.id = (movies.get ⟨i, hi'⟩).id := by
  have htr : transform_and_embed_batch embed movies =
      .ok (((movies.map transform_movie).zip es).map
        fun p => { movie := p.1, embedding := p.2 }) := by
    rw [transform_and_embed_batch, h]
    exact attach_embeddings_ok _ _ (by simpa using hlen)
  refine ⟨_, htr, ?_, ?_⟩
  · simp only [List.length_map, List.length_zip]
    exact min_eq_left hlen
  · intro i hi hi'
    simp only [List.get_eq_getElem, List.getElem_map, List.getElem_zip]
    rfl

/-- C10, witness: two records, two vectors — the output carries ids 10
and 11 in input order. -/
theorem transform_preserves_length_and_order_witness :
    ∃ out, transform_and_embed_batch
        (fun _ => .ok [[5], [6]]) [rawA, rawB] = .ok out ∧
      out.length = [rawA, rawB].length ∧
      ∀ i (hi : i < out.length) (hi' : i < [rawA, rawB].length),
        (out.get ⟨i, hi⟩).movie.id = ([rawA, rawB].get ⟨i, hi'⟩).id :=
  transform_preserves_length_and_order (fun _ => .ok [[5], [6]])
    [rawA, rawB] [[5], [6]] rfl (by decide)

/-- C8: on an empty staging set the pipeline run is a designed no-op
success: zero rows written, the embedding call and the upsert are never
reached, no error is recorded, and the production relation is untouched. -/
theorem empty_staging_no_op
    (embed : List String → Except PyError (List (List ℚ)))
    (fails : MovieWithEmbedding → Bool) (prod : Table) :
    run_pipeline embed fails [] prod =
      { prod := prod, written := 0, embedCalled := false,
        upsertCalled := false, error := none } := rfl

/-- If the write loop returns cleanly then no record's write failed and
the transaction-local state is the full batch fold. -/
theorem runWrites_ok_inv (fails : MovieWithEmbedding → Bool)
    (rs : List MovieWithEmbedding) :
    ∀ t cur, runWrites fails t rs = .ok cur →
      (∀ r ∈ rs, fails r = false) ∧ cur = upsertBatch t rs := by
  induction rs with
  | nil =>
    intro t cur h
    refine ⟨fun r hr => absurd hr (List.not_mem_nil r), ?_⟩
    injection h with h'
    exact h'.symm
  | cons r rs ih =>
    intro t cur h
    by_cases hf : fails r = true
    · rw [runWrites, if_pos hf] at h
      cases h
    · have hf0 : fails r = false := by simpa using hf
      rw [runWrites, if_neg (by simp [hf0])] at h
      obtain ⟨hall, hcur⟩ := ih _ _ h
      refine ⟨?_, hcur⟩
      intro r' hr'
      rcases List.mem_cons.mp hr' with h' | h'
      · subst h'; exact hf0
      · exact hall r' h'

/-- C3: the upsert commits exactly once, after all per-record writes.  If
every write succeeds the committed relation is the full batch applied in
order (and the call returns cleanly); if any write fails, no commit
happens and the committed relation is exactly what it was before the call
— none of the batch's records are durably written. -/
theorem upsert_single_transaction (fails : MovieWithEmbedding → Bool)
    (t : Table) (rs : List MovieWithEmbedding) :
    ((∀ r ∈ rs, fails r = false) →
      upsert_production_movies fails t rs = (upsertBatch t rs, .ok none)) ∧
    ((∃ r ∈ rs, fails r = true) →
      (upsert_production_movies fails t rs).1 = t ∧
      (upsert_production_movies fails t rs).2 = .error .dbWriteError) := by
  constructor
  · intro h
    rw [upsert_production_movies, runWrites_ok fails rs t h]
  · intro h
    rw [upsert_production_movies, runWrites_error fails rs t h]
    exact ⟨rfl, rfl⟩

/-- C3, witness: with no failing write a two-record batch commits to the
batch fold; when the write of the record with id 11 fails, the committed
relation stays empty and the error escapes. -/
theorem upsert_single_transaction_witness :
    upsert_production_movies (fun _ => false) [] [rowA, rowB] =
      (upsertBatch [] [rowA, rowB], .ok none) ∧
    (upsert_production_movies (fun r => decide (rowId r = 11)) [] [rowA, rowB]).1 = [] ∧
    (upsert_production_movies (fun r => decide (rowId r = 11)) [] [rowA, rowB]).2 =
      .error .dbWriteError := by
  have h2 := (upsert_single_transaction (fun r => decide (rowId r = 11)) [] [rowA, rowB]).2
    ⟨rowB, by decide, by decide⟩
  exact ⟨(upsert_single_transaction (fun _ => false) [] [rowA, rowB]).1
    (fun _ _ => rfl), h2.1, h2.2⟩

/-- C7, counterexample: the upsert persists the one-record batch (one row
ends up in the relation) but its Python return value is None — there is
no return statement — so it does not return the count 1 of records
written. -/
theorem upsert_returns_none_not_count :
    (upsert_production_movies (fun _ => false) [] [rowA]).1.length = 1 ∧
    (upsert_production_movies (fun _ => false) [] [rowA]).2 = .ok none ∧
    (upsert_production_movies (fun _ => false) [] [rowA]).2 ≠ .ok (some 1) := by
  refine ⟨rfl, rfl, ?_⟩
  intro h
  have h' : (Except.ok (none : Option Nat) : Except PyError (Option Nat)) = .ok (some 1) := h
  injection h' with h''
  cases h''

/-- C7, amended: on a batch with no failing write the upsert persists
every input record — the committed relation is the in-order fold of all
of them — but the function returns None rather than the count of records
written; callers cannot read a count from it. -/
theorem upsert_writes_all_returns_no_count (fails : MovieWithEmbedding → Bool)
    (t : Table) (rs : List MovieWithEmbedding)
    (h : ∀ r ∈ rs, fails r = false) :
    (upsert_production_movies fails t rs).1 = upsertBatch t rs ∧
    (upsert_production_movies fails t rs).2 = .ok none := by
  rw [upsert_production_movies, runWrites_ok fails rs t h]
  exact ⟨rfl, rfl⟩

/-- C7 amended, witness: the clean two-record upsert commits the batch
fold and returns None. -/
theorem upsert_writes_all_returns_no_count_witness :
    (upsert_production_movies (fun _ => false) [] [rowA, rowB]).1 =
      upsertBatch [] [rowA, rowB] ∧
    (upsert_production_movies (fun _ => false) [] [rowA, rowB]).2 = .ok none :=
  upsert_writes_all_returns_no_count (fun _ => false) [] [rowA, rowB]
    (fun _ _ => rfl)

/-- C1: the upsert is keyed solely on the id.  Writing a record whose id
already exists overwrites all non-key fields of that row and adds no row
(the id column is unchanged); a relation with one row per id keeps that
property across any batch; re-upserting the same batch is a no-op; and
running the whole pipeline a second time on unchanged staging data (same
provider behavior, same write behavior) returns the production relation
it already produced — same rows, same field values. -/
theorem upsert_keyed_idempotent
    (embed : List String → Except PyError (List (List ℚ)))
    (fails : MovieWithEmbedding → Bool) (staging : List RawMovie)
    (t : Table) (hnd : (keys t).Nodup) :
    (∀ r, rowId r ∈ keys t →
      keys (upsertRow t r) = keys t ∧
      lookupId (rowId r) (upsertRow t r) = some r) ∧
    (∀ rs : List MovieWithEmbedding,
      (keys (upsertBatch t rs)).Nodup ∧
      upsertBatch (upsertBatch t rs) rs = upsertBatch t rs) ∧
    ((run_pipeline embed fails staging t).error = none →
      run_pipeline embed fails staging
          ((run_pipeline embed fails staging t).prod) =
        run_pipeline embed fails staging t) := by
  refine ⟨?_, ?_, ?_⟩
  · intro r hmem
    have hc : hasId t (rowId r) = true := (hasId_iff_mem t (rowId r)).mpr hmem
    constructor
    · rw [keys_upsertRow, if_pos hc]
    · rw [lookupId_upsertRow, if_pos rfl]
  · intro rs
    exact ⟨nodup_keys_upsertBatch rs t hnd, upsertBatch_idem t rs hnd⟩
  · intro herr
    cases hemp : staging.isEmpty with
    | true => simp [run_pipeline, hemp]
    | false =>
      cases htr : transform_and_embed_batch embed staging with
      | error e =>
        simp [run_pipeline, hemp, htr] at herr
      | ok recs =>
        cases hup : upsert_production_movies fails t recs with
        | mk t' res =>
          cases res with
          | error e =>
            simp [run_pipeline, hemp, htr, hup] at herr
          | ok v =>
            have hrw : runWrites fails t recs = .ok t' := by
              rw [upsert_production_movies] at hup
              cases hr2 : runWrites fails t recs with
              | ok cur =>
                rw [hr2] at hup
                injection hup with h1 h2
                rw [h1]
              | error e2 =>
                rw [hr2] at hup
                injection hup with h1 h2
                cases h2
            obtain ⟨hall, ht'⟩ := runWrites_ok_inv fails recs t t' hrw
            have hup2 : upsert_production_movies fails t' recs =
                (upsertBatch t' recs, .ok none) := by
              rw [upsert_production_movies, runWrites_ok fails recs t' hall]
            have hidem : upsertBatch t' recs = t' := by
              rw [ht']
              exact upsertBatch_idem t recs hnd
            rw [hidem] at hup2
            have hrun1 : run_pipeline embed fails staging t =
                { prod := t', written := recs.length, embedCalled := true,
                  upsertCalled := true, error := none } := by
              simp [run_pipeline, hemp, htr, hup]
            have hrun2 : run_pipeline embed fails staging t' =
                { prod := t', written := recs.length, embedCalled := true,
                  upsertCalled := true, error := none } := by
              simp [run_pipeline, hemp, htr, hup2]
            rw [hrun1]
            show run_pipeline embed fails staging t' = _
            rw [hrun2]

/-- C1, witness: overwriting the row with id 10 by an updated record
keeps the id column and replaces the fields; a second upsert of the same
batch is a no-op; and a second pipeline run on the same one-record
staging set returns the relation produced by the first run. -/
theorem upsert_keyed_idempotent_witness :
    (keys (upsertRow [rowA] rowA2) = keys [rowA] ∧
      lookupId (rowId rowA2) (upsertRow [rowA] rowA2) = some rowA2) ∧
    ((keys (upsertBatch [rowA] [rowB])).Nodup ∧
      upsertBatch (upsertBatch [rowA] [rowB]) [rowB] =
        upsertBatch [rowA] [rowB]) ∧
    run_pipeline singleVectorResponse neverFails [rawA]
        ((run_pipeline singleVectorResponse neverFails [rawA] [rowA]).prod) =
      run_pipeline singleVectorResponse neverFails [rawA] [rowA] := by
  have h := upsert_keyed_idempotent singleVectorResponse neverFails
    [rawA] [rowA] (by decide)
  exact ⟨h.1 rowA2 (by decide), h.2.1 [rowB], h.2.2 (by rfl)⟩

end EmbedPipeline
